import Mathlib

set_option maxRecDepth 100000

/-!
Shallow embedding of the bmp2cpp pipeline (generator.go, render.go, and the
region-map file) and proofs about it.

Modelling conventions:
* Go `rune` is modelled as `Char`, Go strings as `List Char` (the byte-level
  operations the source performs occur only on valid UTF-8, where they agree
  with the rune-level model; this is noted at each use).
* Go `uint8` values are `Fin 256` (arithmetic wraps mod 256 as in Go);
  Go `int` is `ℤ`; Go `float64` arithmetic is modelled exactly over `ℚ`
  (with `Real.sqrt` for `math.Sqrt`).
* The decoder, scaler and quantizer are external collaborators; `build` is
  therefore modelled from the quantization result onwards, and the resize
  computation is modelled by the dimension arithmetic (`prepareSize`).
* Fallible Go code returns `Except`; a Go runtime panic (out-of-bounds index)
  is modelled by `Option.none` around the result.
-/

/-- The result of Go `color.Color.RGBA()`: alpha-premultiplied 16-bit channels
(values in `0 .. 0xffff`). -/
structure GoColor where
  r : ℕ
  g : ℕ
  b : ℕ
  a : ℕ

/-- `Palette` from the source: `Size int`, `IntensityRune [256]rune`,
`IntensityIndex [256]uint8`. The fixed-size Go arrays are total functions on
`Fin 256`; unwritten entries hold the Go zero values. -/
structure Palette where
  Size : ℕ
  IntensityRune : Fin 256 → Char
  IntensityIndex : Fin 256 → Fin 256

/-- Go zero value of `Palette`. -/
def Palette.zero : Palette :=
  ⟨0, fun _ => Char.ofNat 0, fun _ => 0⟩

/-- `Generator` from generator.go (the JSON tags are, in order: palette,
invert, targetWidth, targetHeight, scaler, renderer, varName, paletteOffset,
rowWiseJS). -/
structure Generator where
  Palette : Palette
  Invert : Bool
  TargetWidth : ℤ
  TargetHeight : ℤ
  Scaler : String
  Renderer : String
  VarName : String
  PaletteOffset : ℤ
  RowWiseJS : Bool

/-- Go zero value of `Generator` (what `json` allocates for a fresh struct). -/
def Generator.zero : Generator :=
  ⟨Palette.zero, false, 0, 0, "", "", "", 0, false⟩

/-- `image.Paletted` as produced by the quantizer: bounds with `Min = (0,0)`,
`Stride = width`, `Pix` a row-major list of `uint8` palette indices, and the
palette itself (a slice of at most 256 colors, modelled as a total function;
indices beyond the slice length are never used by quantizer output). -/
structure PalettedImage where
  width : ℕ
  height : ℕ
  palette : Fin 256 → GoColor
  pix : List (Fin 256)

/-- `img.ColorIndexAt(x, y)`: Go returns 0 when the point is outside the
bounds or the pixel buffer, which `List.getD _ _ 0` reproduces. -/
def colorIndexAt (img : PalettedImage) (x y : ℕ) : Fin 256 :=
  img.pix.getD (y * img.width + x) 0

/-- Read of the Go array `IntensityRune[i]`; the source only ever indexes it
with `i < 256` (the guard is a `dite` purely to keep the function total). -/
def runeAt (p : Palette) (i : ℕ) : Char :=
  if h : i < 256 then p.IntensityRune ⟨i, h⟩ else Char.ofNat 0

/-- Read of the Go array `IntensityIndex[i]`, as `runeAt`. -/
def idxAt (p : Palette) (i : ℕ) : Fin 256 :=
  if h : i < 256 then p.IntensityIndex ⟨i, h⟩ else 0

/-- Go conversion `uint8(n)` of an `int`: truncation mod 256. -/
def toU8 (n : ℤ) : Fin 256 :=
  ⟨(n % 256).toNat, by omega⟩

/-- The radicand of `hsp` (generator.go lines 87-99), computed exactly over
`ℚ`: with `rf = r / 0xffff` etc., it is
`(0.299*rf)^2 + (0.587*gf)^2 + (0.114*bf)^2`. -/
def hspSq (col : GoColor) : ℚ :=
  let rf : ℚ := (col.r : ℚ) / 0xffff
  let gf : ℚ := (col.g : ℚ) / 0xffff
  let bf : ℚ := (col.b : ℚ) / 0xffff
  let rfs : ℚ := 0.299 * rf
  let gfs : ℚ := 0.587 * gf
  let bfs : ℚ := 0.114 * bf
  rfs * rfs + gfs * gfs + bfs * bfs

/-- `hsp` from generator.go: `math.Sqrt` of the weighted sum of squares. -/
noncomputable def hsp (col : GoColor) : ℝ :=
  Real.sqrt (hspSq col : ℚ)

theorem hspSq_nonneg (col : GoColor) : 0 ≤ hspSq col := by
  unfold hspSq
  positivity

/-- Comparing two `hsp` values is the same as comparing the radicands
(`Real.sqrt` is monotone); this is what makes the intensity order
computable. -/
theorem hsp_le_iff (a b : GoColor) : hsp a ≤ hsp b ↔ hspSq a ≤ hspSq b := by
  unfold hsp
  rw [Real.sqrt_le_sqrt_iff (by exact_mod_cast hspSq_nonneg b)]
  exact_mod_cast Iff.rfl

/-- The `hsp` radicand with denominators cleared: comparing these natural
numbers is comparing `hsp` values (evaluation helper). -/
def hspN (col : GoColor) : ℕ :=
  (299 * col.r) ^ 2 + (587 * col.g) ^ 2 + (114 * col.b) ^ 2

theorem hspSq_eq_hspN (col : GoColor) :
    hspSq col = (hspN col : ℚ) / ((1000 * 65535 : ℚ)) ^ 2 := by
  unfold hspSq hspN
  push_cast
  field_simp
  ring

theorem hspSq_le_iff_hspN (a b : GoColor) : hspSq a ≤ hspSq b ↔ hspN a ≤ hspN b := by
  rw [hspSq_eq_hspN, hspSq_eq_hspN, div_le_div_iff_of_pos_right (by norm_num)]
  exact_mod_cast Iff.rfl

theorem hsp_le_iff_hspN (a b : GoColor) : hsp a ≤ hsp b ↔ hspN a ≤ hspN b :=
  (hsp_le_iff a b).trans (hspSq_le_iff_hspN a b)

/-- `uniquePaletteIndexes` (generator.go lines 114-130): scan every pixel via
`ColorIndexAt`, record which palette indices occur, and return them in
ascending index order. -/
def uniquePaletteIndexes (img : PalettedImage) : List (Fin 256) :=
  (List.finRange 256).filter fun c =>
    (List.range img.height).any fun y =>
      (List.range img.width).any fun x => colorIndexAt img x y == c

/-- The total preorder the sort in `Generator.Build` (generator.go lines
52-59) establishes: `sort.Slice` with strict comparator `less` leaves the
slice sorted by `le x y := ¬ less y x`, which for `less = hsp · < hsp ·` is
`hsp · ≤ hsp ·` (reversed when `invert` is set). -/
def intensityLe (invert : Bool) (pal : Fin 256 → GoColor) (i j : Fin 256) : Prop :=
  if invert then hsp (pal j) ≤ hsp (pal i) else hsp (pal i) ≤ hsp (pal j)

instance intensityLeDecidable (invert : Bool) (pal : Fin 256 → GoColor) :
    DecidableRel (intensityLe invert pal) := fun i j =>
  decidable_of_iff
    (if invert then hspN (pal j) ≤ hspN (pal i) else hspN (pal i) ≤ hspN (pal j))
    (by unfold intensityLe; cases invert <;> simp [hsp_le_iff_hspN])

instance intensityLeTotal (invert : Bool) (pal : Fin 256 → GoColor) :
    IsTotal (Fin 256) (intensityLe invert pal) := by
  constructor
  intro a b
  unfold intensityLe
  cases invert <;> simp <;> exact le_total _ _

instance intensityLeTrans (invert : Bool) (pal : Fin 256 → GoColor) :
    IsTrans (Fin 256) (intensityLe invert pal) := by
  constructor
  intro a b c hab hbc
  unfold intensityLe at *
  cases invert <;> simp at *
  · exact le_trans hab hbc
  · exact le_trans hbc hab

/-- The intensity-sorted sequence of used palette indices built by
`Generator.Build` (generator.go lines 52-59). `sort.Slice` is a comparison
sort; its postcondition (a permutation of the input, sorted with respect to
the comparator) is modelled by `List.insertionSort` over `intensityLe`. -/
def sortedPaletteIndexes (g : Generator) (img : PalettedImage) : List (Fin 256) :=
  List.insertionSort (intensityLe g.Invert img.palette) (uniquePaletteIndexes img)

/-- The symbol-mapper table from `Generator.Build` (generator.go lines 64-67):
start from the zero array and set `table[v] = IntensityRune[intensity]` for
each `(intensity, v)` in the ranked index list. -/
def paletteIndexToChar (p : Palette) (idxs : List (Fin 256)) : Fin 256 → Char :=
  idxs.enum.foldl (fun acc iv => Function.update acc iv.2 (runeAt p iv.1))
    (fun _ => Char.ofNat 0)

/-- `renderContext` from render.go lines 9-14. -/
structure RenderContext where
  paletteIndexes : List (Fin 256)
  paletteIndexToChar : Fin 256 → Char
  gen : Generator
  img : PalettedImage

/-- The render context assembled by `Generator.Build` (generator.go lines
52-79). -/
def buildRenderContext (g : Generator) (palimg : PalettedImage) : RenderContext :=
  { paletteIndexes := sortedPaletteIndexes g palimg
    paletteIndexToChar := paletteIndexToChar g.Palette (sortedPaletteIndexes g palimg)
    gen := g
    img := palimg }

theorem uniquePaletteIndexes_nodup (img : PalettedImage) :
    (uniquePaletteIndexes img).Nodup :=
  (List.nodup_finRange 256).filter _

theorem sortedPaletteIndexes_nodup (g : Generator) (img : PalettedImage) :
    (sortedPaletteIndexes g img).Nodup :=
  ((List.perm_insertionSort _ _).nodup_iff).mpr (uniquePaletteIndexes_nodup img)

theorem sortedPaletteIndexes_sorted (g : Generator) (img : PalettedImage) :
    (sortedPaletteIndexes g img).Sorted (intensityLe g.Invert img.palette) :=
  List.sorted_insertionSort _ _

/-- Go `unicode.IsSpace`-style class matched by the `\s` of the split pattern
`,\s*` (Go regexp `\s` is exactly `[\t\n\f\r ]`). -/
def isRegexpSpace (c : Char) : Bool :=
  c = ' ' || c = '\t' || c = '\n' || c = '\x0c' || c = '\r'

/-- `splitPtn.Split(v, -1)` with `splitPtn = regexp.MustCompile(",\s*")`:
split on each comma together with the greedy run of whitespace following it.
`sw` records that we are inside such a whitespace run, `cur` the (reversed)
current token. -/
def splitCommaWS : Bool → List Char → List Char → List (List Char)
  | _, cur, [] => [cur.reverse]
  | sw, cur, c :: t =>
    if sw && isRegexpSpace c then splitCommaWS true cur t
    else if c = ',' then cur.reverse :: splitCommaWS true [] t
    else splitCommaWS false (c :: cur) t

/-- `strconv.ParseUint(s, 10, 8)`, success and value only: base-10 digits,
nonempty, no sign, value at most 255; everything else is an error return. -/
def parseUint8 (s : List Char) : Except String (Fin 256) :=
  if s.isEmpty then .error "invalid syntax"
  else if s.all (·.isDigit) then
    let val := s.foldl (fun acc c => acc * 10 + (c.toNat - '0'.toNat)) 0
    if h : val < 256 then .ok ⟨val, h⟩ else .error "value out of range"
  else .error "invalid syntax"

/-- One `bit` of the `char=value` branch of `PaletteFromChars` (generator.go
lines 214-227): `utf8.DecodeRuneInString` takes the first rune, the byte
after it must be `'='` (on the valid UTF-8 strings this program handles, that
byte test is the test that the second rune is `'='`), and the remainder is
parsed with `strconv.ParseUint(_, 10, 8)`. When the entry is empty or is a
single rune, the source indexes `bit[n]` past the end of the string, a Go
runtime panic, modelled by `none`. -/
def parsePaletteBit (bit : List Char) : Option (Except String (Char × Fin 256)) :=
  match bit with
  | [] => none
  | [_] => none
  | pchar :: c2 :: rest =>
    if c2 ≠ '=' then some (.error "expected = after rune in palette")
    else match parseUint8 rest with
      | .error e => some (.error e)
      | .ok idx => some (.ok (pchar, idx))

/-- The `char=value` loop of `PaletteFromChars`: fold the parsed bits into the
palette arrays at positions `0, 1, ...` (the loop index is an `int` and stays
below 256 because there are at most 256 bits; `% 256` only keeps the model
total). -/
def paletteFromBits : List (List Char) → ℕ → Palette → Option (Except String Palette)
  | [], _, p => some (.ok p)
  | bit :: rest, intensity, p =>
    match parsePaletteBit bit with
    | none => none
    | some (.error e) => some (.error e)
    | some (.ok (pchar, idx)) =>
      let i : Fin 256 := ⟨intensity % 256, Nat.mod_lt _ (by omega)⟩
      paletteFromBits rest (intensity + 1)
        { p with
          IntensityIndex := Function.update p.IntensityIndex i idx
          IntensityRune := Function.update p.IntensityRune i pchar }

/-- `PaletteFromChars` (generator.go lines 205-243). The input Go string is
modelled as its rune sequence. `none` models a Go runtime panic. Note the
bare branch counts with a `uint8` (`Fin 256`) that wraps, exactly as the
source's `var intensity uint8` does. -/
def paletteFromChars (v : List Char) : Option (Except String Palette) :=
  if v.contains '=' then
    let bits := splitCommaWS false [] v
    if bits.length > 256 then some (.error "too many characters in palette")
    else paletteFromBits bits 0 { Palette.zero with Size := bits.length }
  else
    if v.length > 256 then some (.error "too many characters in palette")
    else
      let fin := v.foldl
        (fun (st : Palette × Fin 256) r =>
          ({ st.1 with
              IntensityIndex := Function.update st.1.IntensityIndex st.2 st.2
              IntensityRune := Function.update st.1.IntensityRune st.2 r },
            st.2 + 1))
        (Palette.zero, 0)
      some (.ok { fin.1 with Size := (fin.2 : ℕ) })

/-- `math.Round`: round half away from zero, on the exact rational value. -/
def goRound (q : ℚ) : ℤ :=
  if q < 0 then -(⌊-q + 1/2⌋) else ⌊q + 1/2⌋

/-- `prepareSize` (generator.go lines 140-150): fill in whichever target
dimension is not positive from the other axis by the aspect ratio, the second
branch seeing the width already updated by the first. -/
def prepareSize (targetWidth targetHeight : ℤ) (origX origY : ℤ) : ℤ × ℤ :=
  let tw := if targetWidth ≤ 0 then
      goRound ((origX : ℚ) * ((targetHeight : ℚ) / (origY : ℚ)))
    else targetWidth
  let th := if targetHeight ≤ 0 then
      goRound ((origY : ℚ) * ((tw : ℚ) / (origX : ℚ)))
    else targetHeight
  (tw, th)

/-- The dimensions `Generator.Build` (generator.go lines 33-42) hands to the
rest of the pipeline: resize to `prepareSize ...` when either target dimension
is positive, otherwise keep the original size. -/
def buildSize (g : Generator) (origX origY : ℤ) : ℤ × ℤ :=
  if 0 < g.TargetWidth ∨ 0 < g.TargetHeight then
    prepareSize g.TargetWidth g.TargetHeight origX origY
  else (origX, origY)

/-- `mapSeenChars` (generator.go lines 101-112) as a membership predicate:
`seenChar img table c` holds exactly when `out[c]` is set, i.e. some pixel of
the final image maps to the character `c`. -/
def seenChar (img : PalettedImage) (table : Fin 256 → Char) (c : Char) : Bool :=
  (List.range img.height).any fun y =>
    (List.range img.width).any fun x => table (colorIndexAt img x y) == c

/-- The sequence of symbol-constant declarations `renderCPP` emits (render.go
lines 94-99): one `#define IntensityRune[i] (IntensityIndex[i] + uint8(offset))`
for every rank `i` of the used-color list, unconditionally. -/
def declsCPP (ctx : RenderContext) : List (Char × Fin 256) :=
  (List.range ctx.paletteIndexes.length).map fun intensity =>
    (runeAt ctx.gen.Palette intensity,
      idxAt ctx.gen.Palette intensity + toU8 ctx.gen.PaletteOffset)

/-- The sequence of symbol-constant declarations `renderCPP17` emits
(render.go lines 137-149): as `renderCPP`, but a rank is only emitted when its
character actually appears in the final image (`seenChars[char]`). -/
def declsCPP17 (ctx : RenderContext) : List (Char × Fin 256) :=
  (List.range ctx.paletteIndexes.length).filterMap fun intensity =>
    let char := runeAt ctx.gen.Palette intensity
    if seenChar ctx.img ctx.paletteIndexToChar char then
      some (char, idxAt ctx.gen.Palette intensity + toU8 ctx.gen.PaletteOffset)
    else none

/-- The sequence of symbol-constant declarations `renderJS` emits (render.go
lines 44-58), shared by the `js` and `cjs` dialects: the same
filter-by-seen-character loop as `renderCPP17`. -/
def declsJS (ctx : RenderContext) : List (Char × Fin 256) :=
  (List.range ctx.paletteIndexes.length).filterMap fun intensity =>
    let char := runeAt ctx.gen.Palette intensity
    if seenChar ctx.img ctx.paletteIndexToChar char then
      some (char, idxAt ctx.gen.Palette intensity + toU8 ctx.gen.PaletteOffset)
    else none

/-- The pixel grid every renderer serializes: row `y`, column `x` carries the
character `paletteIndexToChar[ColorIndexAt(x, y)]`. -/
def renderRows (ctx : RenderContext) : List (List Char) :=
  (List.range ctx.img.height).map fun y =>
    (List.range ctx.img.width).map fun x =>
      ctx.paletteIndexToChar (colorIndexAt ctx.img x y)

/-- The semantic content of a rendered output: the emitted symbol-constant
declarations and the character grid (the surrounding dialect boilerplate
carries no further claim-relevant information). -/
structure RenderOutput where
  decls : List (Char × Fin 256)
  rows : List (List Char)

/-- `render` dispatch (render.go lines 16-29): four dialects, an unknown
renderer name is an error. -/
def render (g : Generator) (ctx : RenderContext) : Except String RenderOutput :=
  match g.Renderer with
  | "cpp17" => .ok ⟨declsCPP17 ctx, renderRows ctx⟩
  | "cpp" => .ok ⟨declsCPP ctx, renderRows ctx⟩
  | "cjs" => .ok ⟨declsJS ctx, renderRows ctx⟩
  | "js" => .ok ⟨declsJS ctx, renderRows ctx⟩
  | _ => .error "unknown renderer"

/-- `Generator.Build` (generator.go lines 33-85) from the quantization result
onwards (decoder, scaler and quantizer are external collaborators, so the
quantizer outcome is a parameter). The second component collects the
file-system side effects: the pair `(path, image)` records that the PNG
encoding of `image` is written to `path` (generator.go lines 69-71), before
`render` runs and regardless of its outcome. -/
def build (g : Generator) (quantRes : Except String PalettedImage) :
    Except String RenderOutput × List (String × PalettedImage) :=
  match quantRes with
  | .error e => (.error e, [])
  | .ok palimg =>
    let ctx := buildRenderContext g palimg
    (render g ctx, [("/tmp/s.png", palimg)])

/-- A parsed JSON document (the region-map file is syntactically valid JSON by
the time `UnmarshalJSON` sees it; numbers that occur in a region map are
integers). -/
inductive Json where
  | null : Json
  | bool : Bool → Json
  | num : ℤ → Json
  | str : String → Json
  | arr : List Json → Json
  | obj : List (String × Json) → Json

/-- Structured decode errors (`encoding/json` reports these as formatted
strings; `areaErr idx e` models the `fmt.Errorf("invalid area %d: %w", idx, e)`
wrapping, and `palettePanic` the runtime panic of `PaletteFromChars`). -/
inductive DErr where
  | unknownField : String → DErr
  | typeMismatch : String → DErr
  | paletteErr : String → DErr
  | palettePanic : DErr
  | areaErr : ℕ → DErr → DErr
deriving DecidableEq

/-- `encoding/json` matches an object key against a field name or tag
case-insensitively (preferring exact matches; with the schemas here the two
rules coincide). -/
def lowerKey (s : String) : String :=
  String.mk (s.data.map Char.toLower)

/-- Decode one object member into a `Generator` field, mutating-struct style:
a known key with `null` value leaves the field unchanged (except `palette`,
whose custom `UnmarshalJSON` turns `null` into the empty palette string), a
known key with a well-typed value overwrites the field, an unknown key is an
error (`DisallowUnknownFields`), a mistyped value is an error. -/
def decodeGenField (g : Generator) (k : String) (v : Json) : Except DErr Generator :=
  if lowerKey k = "palette" then
    match v with
    | .null =>
      -- json.Unmarshal("null", &s) leaves s == ""; PaletteFromChars("")
      -- yields the empty palette.
      match paletteFromChars [] with
      | some (.ok p) => .ok { g with Palette := p }
      | some (.error e) => .error (.paletteErr e)
      | none => .error .palettePanic
    | .str s =>
      match paletteFromChars s.toList with
      | some (.ok p) => .ok { g with Palette := p }
      | some (.error e) => .error (.paletteErr e)
      | none => .error .palettePanic
    | _ => .error (.typeMismatch "palette")
  else if lowerKey k = "invert" then
    match v with
    | .null => .ok g
    | .bool b => .ok { g with Invert := b }
    | _ => .error (.typeMismatch "invert")
  else if lowerKey k = "targetwidth" then
    match v with
    | .null => .ok g
    | .num n => .ok { g with TargetWidth := n }
    | _ => .error (.typeMismatch "targetWidth")
  else if lowerKey k = "targetheight" then
    match v with
    | .null => .ok g
    | .num n => .ok { g with TargetHeight := n }
    | _ => .error (.typeMismatch "targetHeight")
  else if lowerKey k = "scaler" then
    match v with
    | .null => .ok g
    | .str s => .ok { g with Scaler := s }
    | _ => .error (.typeMismatch "scaler")
  else if lowerKey k = "renderer" then
    match v with
    | .null => .ok g
    | .str s => .ok { g with Renderer := s }
    | _ => .error (.typeMismatch "renderer")
  else if lowerKey k = "varname" then
    match v with
    | .null => .ok g
    | .str s => .ok { g with VarName := s }
    | _ => .error (.typeMismatch "varName")
  else if lowerKey k = "paletteoffset" then
    match v with
    | .null => .ok g
    | .num n => .ok { g with PaletteOffset := n }
    | _ => .error (.typeMismatch "paletteOffset")
  else if lowerKey k = "rowwisejs" then
    match v with
    | .null => .ok g
    | .bool b => .ok { g with RowWiseJS := b }
    | _ => .error (.typeMismatch "rowWiseJS")
  else .error (.unknownField k)

/-- Sequential decode of an object body into an existing `Generator` (later
duplicate keys overwrite earlier ones, as `encoding/json` does). -/
def decodeGenFields (g : Generator) : List (String × Json) → Except DErr Generator
  | [] => .ok g
  | kv :: rest =>
    match decodeGenField g kv.1 kv.2 with
    | .error e => .error e
    | .ok g1 => decodeGenFields g1 rest

/-- Decode a JSON value into an existing `Generator` (callers handle `null`
according to Go pointer semantics). -/
def decodeGeneratorInto (g : Generator) (j : Json) : Except DErr Generator :=
  match j with
  | .obj kvs => decodeGenFields g kvs
  | _ => .error (.typeMismatch "generator")

/-- `Area` from the region-map source: x/y/w/h plus the (pointer-valued)
per-area generator. -/
structure Area where
  x : ℤ
  y : ℤ
  w : ℤ
  h : ℤ
  gen : Option Generator

/-- The area value `ImageMap.UnmarshalJSON` seeds before decoding area `idx`:
zero coordinates and `Gen` pointing at a fresh clone of the map generator. -/
def initArea (g0 : Generator) : Area :=
  ⟨0, 0, 0, 0, some g0⟩

/-- Decode one object member into an `Area` field (same conventions as
`decodeGenField`; for the pointer field `gen`, `null` stores a nil pointer and
an object decodes into the pointed-to generator, allocating a zero one if the
pointer is nil). -/
def decodeAreaField (a : Area) (k : String) (v : Json) : Except DErr Area :=
  if lowerKey k = "x" then
    match v with
    | .null => .ok a
    | .num n => .ok { a with x := n }
    | _ => .error (.typeMismatch "x")
  else if lowerKey k = "y" then
    match v with
    | .null => .ok a
    | .num n => .ok { a with y := n }
    | _ => .error (.typeMismatch "y")
  else if lowerKey k = "w" then
    match v with
    | .null => .ok a
    | .num n => .ok { a with w := n }
    | _ => .error (.typeMismatch "w")
  else if lowerKey k = "h" then
    match v with
    | .null => .ok a
    | .num n => .ok { a with h := n }
    | _ => .error (.typeMismatch "h")
  else if lowerKey k = "gen" then
    match v with
    | .null => .ok { a with gen := none }
    | .obj _ =>
      match decodeGeneratorInto (a.gen.getD Generator.zero) v with
      | .error e => .error e
      | .ok g1 => .ok { a with gen := some g1 }
    | _ => .error (.typeMismatch "gen")
  else .error (.unknownField k)

/-- Sequential decode of an object body into an existing `Area`. -/
def decodeAreaFields (a : Area) : List (String × Json) → Except DErr Area
  | [] => .ok a
  | kv :: rest =>
    match decodeAreaField a kv.1 kv.2 with
    | .error e => .error e
    | .ok a1 => decodeAreaFields a1 rest

/-- Decode one raw area message into the seeded `Area` value (a JSON `null`
leaves the seeded struct unchanged, as `encoding/json` does). -/
def decodeArea (a0 : Area) (j : Json) : Except DErr Area :=
  match j with
  | .null => .ok a0
  | .obj kvs => decodeAreaFields a0 kvs
  | _ => .error (.typeMismatch "area")

/-- State of the first (top-level) decode phase of `ImageMap.UnmarshalJSON`:
the map generator clone (`imGen`), whether `tmp.Gen` still aliases it (a
top-level `"gen": null` breaks the alias, after which further `"gen"` objects
decode into a discarded fresh generator), and the captured raw `areas`
messages. -/
structure TopState where
  imGen : Generator
  aliased : Bool
  areasRaw : Option (List Json)

/-- The top-level member loop of `ImageMap.UnmarshalJSON`: `"gen"` decodes
into the aliased clone (or a discarded fresh generator once un-aliased),
`"areas"` captures the raw messages (`null` resets the slice to nil), anything
else trips `DisallowUnknownFields`. -/
def decodeTopFields (st : TopState) : List (String × Json) → Except DErr TopState
  | [] => .ok st
  | kv :: rest =>
    if lowerKey kv.1 = "gen" then
      match kv.2 with
      | .null => decodeTopFields { st with aliased := false } rest
      | .obj _ =>
        if st.aliased then
          match decodeGeneratorInto st.imGen kv.2 with
          | .error e => .error e
          | .ok g1 => decodeTopFields { st with imGen := g1 } rest
        else
          match decodeGeneratorInto Generator.zero kv.2 with
          | .error e => .error e
          | .ok _ => decodeTopFields st rest
      | _ => .error (.typeMismatch "gen")
    else if lowerKey kv.1 = "areas" then
      match kv.2 with
      | .null => decodeTopFields { st with areasRaw := none } rest
      | .arr xs => decodeTopFields { st with areasRaw := some xs } rest
      | _ => .error (.typeMismatch "areas")
    else .error (.unknownField kv.1)

/-- Phase one of `ImageMap.UnmarshalJSON` (the decode of `tmp`): returns the
effective map generator and the raw area messages. -/
def topPhase (parent : Generator) (j : Json) : Except DErr (Generator × List Json) :=
  match j with
  | .null => .ok (parent, [])
  | .obj kvs =>
    match decodeTopFields ⟨parent, true, none⟩ kvs with
    | .error e => .error e
    | .ok st => .ok (st.imGen, st.areasRaw.getD [])
  | _ => .error (.typeMismatch "imagemap")

/-- Phase two: decode each raw area message into a fresh clone of the map
generator, wrapping any failure as `invalid area idx`. -/
def decodeAreas (g0 : Generator) (start : ℕ) : List Json → Except DErr (List Area)
  | [] => .ok []
  | x :: rest =>
    match decodeArea (initArea g0) x with
    | .error e => .error (.areaErr start e)
    | .ok a =>
      match decodeAreas g0 (start + 1) rest with
      | .error e => .error e
      | .ok as => .ok (a :: as)

/-- `ImageMap` as decoded. -/
structure ImageMap where
  areas : List Area
  gen : Generator

/-- `ImageMap.UnmarshalJSON` (region-map source lines 27-49), starting from
the parent generator the caller seeded into `im.Gen`. -/
def decodeImageMap (parent : Generator) (j : Json) : Except DErr ImageMap :=
  match topPhase parent j with
  | .error e => .error e
  | .ok (g0, raws) =>
    match decodeAreas g0 0 raws with
    | .error e => .error e
    | .ok as => .ok ⟨as, g0⟩

/-- Folding the symbol-table updates over `enumFrom n` never changes the table
at an index that does not occur in the list. -/
theorem symbolFold_not_mem (p : Palette) :
    ∀ (l : List (Fin 256)) (n : ℕ) (init : Fin 256 → Char) (v : Fin 256), v ∉ l →
      (List.enumFrom n l).foldl
        (fun acc iv => Function.update acc iv.2 (runeAt p iv.1)) init v = init v := by
  intro l
  induction l with
  | nil => intro n init v _; rfl
  | cons x xs ih =>
    intro n init v hv
    have hvx : v ≠ x := fun h => hv (by simp [h])
    have hvxs : v ∉ xs := fun h => hv (List.mem_cons_of_mem _ h)
    simp only [List.enumFrom, List.foldl_cons]
    rw [ih (n + 1) _ v hvxs]
    exact Function.update_noteq hvx _ _

/-- Folding the symbol-table updates over a duplicate-free list sets the entry
at the list's `i`-th element to the rune of rank `n + i`. -/
theorem symbolFold_get (p : Palette) :
    ∀ (l : List (Fin 256)) (n : ℕ) (init : Fin 256 → Char) (i : ℕ) (hi : i < l.length),
      l.Nodup →
      (List.enumFrom n l).foldl
        (fun acc iv => Function.update acc iv.2 (runeAt p iv.1)) init (l.get ⟨i, hi⟩) =
        runeAt p (n + i) := by
  intro l
  induction l with
  | nil => intro n init i hi; exact absurd hi (by simp)
  | cons x xs ih =>
    intro n init i hi hnd
    have hx : x ∉ xs := (List.nodup_cons.mp hnd).1
    have hxs : xs.Nodup := (List.nodup_cons.mp hnd).2
    simp only [List.enumFrom, List.foldl_cons]
    cases i with
    | zero =>
      rw [show (x :: xs).get ⟨0, hi⟩ = x from rfl]
      rw [symbolFold_not_mem p xs (n + 1) _ x hx, Function.update_same, Nat.add_zero]
    | succ j =>
      rw [show (x :: xs).get ⟨j + 1, hi⟩ = xs.get ⟨j, by simpa using hi⟩ from rfl]
      rw [ih (n + 1) _ j (by simpa using hi) hxs]
      congr 1
      omega

/-- The symbol table at the `i`-th entry of a duplicate-free ranked list is
the configured rune of rank `i`. -/
theorem paletteIndexToChar_rank (p : Palette) (l : List (Fin 256)) (i : ℕ)
    (hi : i < l.length) (hnd : l.Nodup) :
    paletteIndexToChar p l (l.get ⟨i, hi⟩) = runeAt p i := by
  unfold paletteIndexToChar
  have h := symbolFold_get p l 0 (fun _ => Char.ofNat 0) i hi hnd
  simpa [List.enum] using h

/-- C1. For every built image and adjacent ranks `i`, `i+1` of the
intensity-sorted used palette indices: in non-inverted mode the HSP intensity
of the color at rank `i` is at most that of rank `i+1`; with the invert flag
set the ordering is reversed. -/
theorem build_intensity_sorted (g : Generator) (img : PalettedImage) (i : ℕ)
    (h : i + 1 < (sortedPaletteIndexes g img).length) :
    (g.Invert = false →
      hsp (img.palette ((sortedPaletteIndexes g img).getD i 0)) ≤
        hsp (img.palette ((sortedPaletteIndexes g img).getD (i + 1) 0))) ∧
    (g.Invert = true →
      hsp (img.palette ((sortedPaletteIndexes g img).getD (i + 1) 0)) ≤
        hsp (img.palette ((sortedPaletteIndexes g img).getD i 0))) := by
  have hs := sortedPaletteIndexes_sorted g img
  have hi : i < (sortedPaletteIndexes g img).length := by omega
  have hrel := hs.rel_get_of_lt (a := ⟨i, hi⟩) (b := ⟨i + 1, h⟩) (by simp [Fin.lt_def])
  rw [List.getD_eq_get _ _ hi, List.getD_eq_get _ _ h]
  unfold intensityLe at hrel
  constructor
  · intro hinv
    rw [hinv] at hrel
    simpa using hrel
  · intro hinv
    rw [hinv] at hrel
    simpa using hrel

def imgC1 : PalettedImage :=
  ⟨2, 1, fun i => if i = 0 then ⟨0xffff, 0xffff, 0xffff, 0xffff⟩ else ⟨0, 0, 0, 0xffff⟩,
    [0, 1]⟩

set_option maxRecDepth 8000 in
theorem build_intensity_sorted_witness :
    0 + 1 < (sortedPaletteIndexes Generator.zero imgC1).length ∧
    ((Generator.zero.Invert = false →
      hsp (imgC1.palette ((sortedPaletteIndexes Generator.zero imgC1).getD 0 0)) ≤
        hsp (imgC1.palette ((sortedPaletteIndexes Generator.zero imgC1).getD (0 + 1) 0))) ∧
    (Generator.zero.Invert = true →
      hsp (imgC1.palette ((sortedPaletteIndexes Generator.zero imgC1).getD (0 + 1) 0)) ≤
        hsp (imgC1.palette ((sortedPaletteIndexes Generator.zero imgC1).getD 0 0)))) :=
  ⟨by decide, build_intensity_sorted Generator.zero imgC1 0 (by decide)⟩

/-- C2. For an intensity-ranked image, the 256-entry lookup table maps the
used palette index of rank `i` to the configured palette's rune at rank `i`,
under the stated precondition that the configured palette has at least as many
entries as colors are used. -/
theorem build_symbol_table_rank (g : Generator) (img : PalettedImage) (i : ℕ)
    (hi : i < (sortedPaletteIndexes g img).length)
    (hsize : (sortedPaletteIndexes g img).length ≤ g.Palette.Size) :
    paletteIndexToChar g.Palette (sortedPaletteIndexes g img)
        ((sortedPaletteIndexes g img).getD i 0) = runeAt g.Palette i := by
  rw [List.getD_eq_get _ _ hi]
  exact paletteIndexToChar_rank _ _ _ hi (sortedPaletteIndexes_nodup g img)

def palC2 : Palette :=
  ⟨2, fun i => if i = 0 then 'a' else if i = 1 then 'b' else Char.ofNat 0, fun i => i⟩

def genC2 : Generator :=
  { Generator.zero with Palette := palC2 }

set_option maxRecDepth 8000 in
theorem build_symbol_table_rank_witness :
    0 < (sortedPaletteIndexes genC2 imgC1).length ∧
    (sortedPaletteIndexes genC2 imgC1).length ≤ genC2.Palette.Size ∧
    paletteIndexToChar genC2.Palette (sortedPaletteIndexes genC2 imgC1)
        ((sortedPaletteIndexes genC2 imgC1).getD 0 0) = runeAt genC2.Palette 0 :=
  ⟨by decide, by decide, build_symbol_table_rank genC2 imgC1 0 (by decide) (by decide)⟩

/-- The spec's intensity formula (§4.1), written exactly as the spec states
it: `sqrt(0.299²·R² + 0.587²·G² + 0.114²·B²)` with channels normalized to
`[0,1]`. Refinement counterpart of `hsp`, for comparison. -/
noncomputable def hspSpecFormula (col : GoColor) : ℝ :=
  Real.sqrt (0.299 ^ 2 * ((col.r : ℝ) / 65535) ^ 2 +
    0.587 ^ 2 * ((col.g : ℝ) / 65535) ^ 2 +
    0.114 ^ 2 * ((col.b : ℝ) / 65535) ^ 2)

/-- C3. The perceptual intensity the sorter computes equals the spec's
weighted luma formula. -/
theorem hsp_eq_spec_formula (col : GoColor) : hsp col = hspSpecFormula col := by
  unfold hsp hspSpecFormula hspSq
  congr 1
  push_cast
  ring

/-- C7. With positive original dimensions: when exactly one target dimension
is positive the given axis is kept and the other is the rounded
(half-away-from-zero) aspect-preserving value; when neither is positive no
resize occurs. -/
theorem buildSize_spec (g : Generator) (ox oy : ℤ) (hx : 0 < ox) (hy : 0 < oy) :
    (0 < g.TargetWidth ∧ g.TargetHeight ≤ 0 →
      buildSize g ox oy =
        (g.TargetWidth, goRound ((oy : ℚ) * ((g.TargetWidth : ℚ) / (ox : ℚ))))) ∧
    (g.TargetWidth ≤ 0 ∧ 0 < g.TargetHeight →
      buildSize g ox oy =
        (goRound ((ox : ℚ) * ((g.TargetHeight : ℚ) / (oy : ℚ))), g.TargetHeight)) ∧
    (g.TargetWidth ≤ 0 ∧ g.TargetHeight ≤ 0 → buildSize g ox oy = (ox, oy)) := by
  refine ⟨fun ⟨hw, hh⟩ => ?_, fun ⟨hw, hh⟩ => ?_, fun ⟨hw, hh⟩ => ?_⟩
  · unfold buildSize prepareSize
    rw [if_pos (Or.inl hw)]
    simp only [if_neg (by omega : ¬ g.TargetWidth ≤ 0), if_pos hh]
  · unfold buildSize prepareSize
    rw [if_pos (Or.inr hh)]
    simp only [if_pos hw, if_neg (by omega : ¬ g.TargetHeight ≤ 0)]
  · unfold buildSize
    rw [if_neg (by omega)]

def genC7 : Generator :=
  { Generator.zero with TargetWidth := 200, TargetHeight := 0 }

theorem buildSize_spec_witness :
    (0 : ℤ) < 100 ∧ (0 : ℤ) < 50 ∧ buildSize genC7 100 50 = (200, 100) := by
  refine ⟨by decide, by decide, ?_⟩
  have h := (buildSize_spec genC7 100 50 (by decide) (by decide)).1 ⟨by decide, by decide⟩
  rw [h]
  norm_num [genC7, Generator.zero, goRound]

/-- C10. Whenever `Generator.Build` reaches the rendering stage (the quantizer
returned an image), it records exactly one file-system write: the PNG encoding
of the quantized image to the fixed path `/tmp/s.png` — for every
configuration, and independently of whether rendering then succeeds. -/
theorem build_writes_png (g : Generator) (palimg : PalettedImage)
    (quantRes : Except String PalettedImage) (h : quantRes = .ok palimg) :
    (build g quantRes).2 = [("/tmp/s.png", palimg)] := by
  subst h
  rfl

def genC10 : Generator :=
  { Generator.zero with Renderer := "no-such-renderer" }

theorem build_writes_png_witness :
    (Except.ok imgC1 : Except String PalettedImage) = .ok imgC1 ∧
    (build genC10 (.ok imgC1)).2 = [("/tmp/s.png", imgC1)] :=
  ⟨rfl, build_writes_png genC10 imgC1 _ rfl⟩

/-- C9. Evaluation of `PaletteFromChars` at the failing input `"="`: the
input contains `'='`, so the `char=value` branch runs; its single entry
consists of one rune, so the source indexes `bit[n]` one past the end of the
entry — an out-of-bounds access (Go runtime panic, `none` in the model)
instead of the error return the claim requires. -/
theorem paletteFromChars_eq_panics :
    paletteFromChars ['='] = none ∧ ('=' ∈ ['=']) := by
  exact ⟨rfl, by decide⟩

set_option maxRecDepth 40000 in
/-- C4. Evaluation of `PaletteFromChars` at a bare string of exactly 256
runes (no `'='`): the 256-entry guard admits it, but the `uint8` intensity
counter wraps to 0, so the returned palette has `Size = 0`, not 256 as the
claim requires. -/
theorem paletteFromChars_256_runes_size_zero :
    (List.replicate 256 'a').length = 256 ∧
    ('=' ∉ List.replicate 256 'a') ∧
    (paletteFromChars (List.replicate 256 'a')).map (Except.map Palette.Size) =
      some (.ok 0) := by
  refine ⟨by decide, by decide, ?_⟩
  rfl

/-- C8. Symbol-constant minimization per dialect: for the context built by
`Generator.Build`, the token-minimizing dialects (`cpp17`, and `renderJS`
serving both `js` and `cjs`) declare a character exactly when it appears at
least once in the final indexed image, while `cpp` declares the configured
characters of ranks `0 .. (number of used colors) - 1` whether or not they
appear. -/
theorem seen_filterMap_mem (g : Generator) (img : PalettedImage) (c : Char) :
    c ∈ ((List.range (sortedPaletteIndexes g img).length).filterMap
        (fun intensity =>
          if seenChar img (paletteIndexToChar g.Palette (sortedPaletteIndexes g img))
              (runeAt g.Palette intensity)
          then some (runeAt g.Palette intensity,
            idxAt g.Palette intensity + toU8 g.PaletteOffset)
          else none)).map Prod.fst ↔
      seenChar img (paletteIndexToChar g.Palette (sortedPaletteIndexes g img)) c = true := by
  constructor
  · intro hc
    simp only [List.mem_map, List.mem_filterMap, List.mem_range] at hc
    obtain ⟨⟨ch, v⟩, ⟨i, _, hi⟩, hfst⟩ := hc
    by_cases hseen :
        seenChar img (paletteIndexToChar g.Palette (sortedPaletteIndexes g img))
          (runeAt g.Palette i) = true
    · simp only [hseen, if_true] at hi
      cases hi
      rw [← hfst]
      simpa using hseen
    · simp only [Bool.not_eq_true] at hseen
      simp [hseen] at hi
  · intro hseen
    have hex : ∃ y, y < img.height ∧ ∃ x, x < img.width ∧
        paletteIndexToChar g.Palette (sortedPaletteIndexes g img)
          (colorIndexAt img x y) = c := by
      simpa [seenChar, List.any_eq_true, List.mem_range] using hseen
    obtain ⟨y, hy, x, hx, hpx⟩ := hex
    set px := colorIndexAt img x y with hpxdef
    have hmem : px ∈ uniquePaletteIndexes img := by
      unfold uniquePaletteIndexes
      rw [List.mem_filter]
      refine ⟨List.mem_finRange px, ?_⟩
      simp only [List.any_eq_true, List.mem_range]
      exact ⟨y, hy, x, hx, by simp [hpxdef]⟩
    have hmem2 : px ∈ sortedPaletteIndexes g img := by
      unfold sortedPaletteIndexes
      exact (List.perm_insertionSort _ _).mem_iff.mpr hmem
    obtain ⟨⟨r, hr⟩, hget⟩ := List.mem_iff_get.mp hmem2
    have htab := paletteIndexToChar_rank g.Palette (sortedPaletteIndexes g img) r hr
      (sortedPaletteIndexes_nodup g img)
    rw [hget] at htab
    have hrc : runeAt g.Palette r = c := by rw [← htab, hpx]
    simp only [List.mem_map, List.mem_filterMap, List.mem_range]
    refine ⟨(c, idxAt g.Palette r + toU8 g.PaletteOffset), ⟨r, hr, ?_⟩, rfl⟩
    rw [hrc]
    simp [hseen]

/-- C8. Symbol-constant minimization per dialect: for the context built by
`Generator.Build`, the token-minimizing dialects (`cpp17`, and `renderJS`
serving both `js` and `cjs`) declare a character exactly when it appears at
least once in the final indexed image, while `cpp` declares the configured
characters of ranks `0 .. (number of used colors) - 1` whether or not they
appear. -/
theorem render_decl_minimization (g : Generator) (img : PalettedImage) (c : Char) :
    ((c ∈ (declsCPP17 (buildRenderContext g img)).map Prod.fst ↔
        seenChar img (buildRenderContext g img).paletteIndexToChar c = true) ∧
      (c ∈ (declsJS (buildRenderContext g img)).map Prod.fst ↔
        seenChar img (buildRenderContext g img).paletteIndexToChar c = true)) ∧
    (c ∈ (declsCPP (buildRenderContext g img)).map Prod.fst ↔
      ∃ i, i < (buildRenderContext g img).paletteIndexes.length ∧
        runeAt g.Palette i = c) := by
  refine ⟨⟨?_, ?_⟩, ?_⟩
  · exact seen_filterMap_mem g img c
  · exact seen_filterMap_mem g img c
  · simp [declsCPP, buildRenderContext, List.mem_map, List.mem_range]

def palC8 : Palette :=
  ⟨3, fun i => if i = 0 then 'a' else if i = 1 then 'b' else if i = 2 then 'c'
    else Char.ofNat 0, fun i => i⟩

def genC8 : Generator :=
  { Generator.zero with Palette := palC8, Renderer := "cpp" }

def imgC8 : PalettedImage :=
  ⟨1, 1, fun _ => ⟨0, 0, 0, 0xffff⟩, [0]⟩

set_option maxRecDepth 8000 in
/-- C8 counterexample: with a configured palette of three characters and an
image using one color, the `cpp` dialect does not declare the rank-2
configured character `'c'` — so it does not emit the full configured palette
set. -/
theorem renderCPP_not_full_palette :
    genC8.Palette.Size = 3 ∧ runeAt genC8.Palette 2 = 'c' ∧
    'c' ∉ (declsCPP (buildRenderContext genC8 imgC8)).map Prod.fst := by
  refine ⟨by decide, by decide, by decide⟩

/-- The spec-side view of a generator override (spec §4.3 and §9: a
layered/partial-update pattern with optional-typed fields): exactly the
generator fields present in the override object, independent of any parent. -/
structure GenPatch where
  palette : Option Palette
  invert : Option Bool
  targetWidth : Option ℤ
  targetHeight : Option ℤ
  scaler : Option String
  renderer : Option String
  varName : Option String
  paletteOffset : Option ℤ
  rowWiseJS : Option Bool

/-- The empty override: no field present. -/
def GenPatch.empty : GenPatch :=
  ⟨none, none, none, none, none, none, none, none, none⟩

/-- Modelled from the spec's words (§4.3): "deep copy of the parent Generator
with any area-specified fields overriding the copy (shallow field-level
override)" — every field present in the patch replaces the parent's, every
absent field is kept. -/
def applyPatch (g : Generator) (p : GenPatch) : Generator :=
  ⟨p.palette.getD g.Palette, p.invert.getD g.Invert,
    p.targetWidth.getD g.TargetWidth, p.targetHeight.getD g.TargetHeight,
    p.scaler.getD g.Scaler, p.renderer.getD g.Renderer,
    p.varName.getD g.VarName, p.paletteOffset.getD g.PaletteOffset,
    p.rowWiseJS.getD g.RowWiseJS⟩

/-- Reading one override member into the patch, with the same key matching,
typing and error behavior as the decoder but no parent generator in sight
(a `null` member is not an effective override, except the `palette` quirk
where `null` decodes like the empty palette string). -/
def readPatchField (p : GenPatch) (k : String) (v : Json) : Except DErr GenPatch :=
  if lowerKey k = "palette" then
    match v with
    | .null =>
      match paletteFromChars [] with
      | some (.ok pl) => .ok { p with palette := some pl }
      | some (.error e) => .error (.paletteErr e)
      | none => .error .palettePanic
    | .str s =>
      match paletteFromChars s.toList with
      | some (.ok pl) => .ok { p with palette := some pl }
      | some (.error e) => .error (.paletteErr e)
      | none => .error .palettePanic
    | _ => .error (.typeMismatch "palette")
  else if lowerKey k = "invert" then
    match v with
    | .null => .ok p
    | .bool b => .ok { p with invert := some b }
    | _ => .error (.typeMismatch "invert")
  else if lowerKey k = "targetwidth" then
    match v with
    | .null => .ok p
    | .num n => .ok { p with targetWidth := some n }
    | _ => .error (.typeMismatch "targetWidth")
  else if lowerKey k = "targetheight" then
    match v with
    | .null => .ok p
    | .num n => .ok { p with targetHeight := some n }
    | _ => .error (.typeMismatch "targetHeight")
  else if lowerKey k = "scaler" then
    match v with
    | .null => .ok p
    | .str s => .ok { p with scaler := some s }
    | _ => .error (.typeMismatch "scaler")
  else if lowerKey k = "renderer" then
    match v with
    | .null => .ok p
    | .str s => .ok { p with renderer := some s }
    | _ => .error (.typeMismatch "renderer")
  else if lowerKey k = "varname" then
    match v with
    | .null => .ok p
    | .str s => .ok { p with varName := some s }
    | _ => .error (.typeMismatch "varName")
  else if lowerKey k = "paletteoffset" then
    match v with
    | .null => .ok p
    | .num n => .ok { p with paletteOffset := some n }
    | _ => .error (.typeMismatch "paletteOffset")
  else if lowerKey k = "rowwisejs" then
    match v with
    | .null => .ok p
    | .bool b => .ok { p with rowWiseJS := some b }
    | _ => .error (.typeMismatch "rowWiseJS")
  else .error (.unknownField k)

/-- Reading a whole override object into a patch. -/
def readPatchFields (p : GenPatch) : List (String × Json) → Except DErr GenPatch
  | [] => .ok p
  | kv :: rest =>
    match readPatchField p kv.1 kv.2 with
    | .error e => .error e
    | .ok p1 => readPatchFields p1 rest

/-- The patch an override object denotes. -/
def genPatchOf (o : List (String × Json)) : Except DErr GenPatch :=
  readPatchFields GenPatch.empty o

theorem applyPatch_empty (g : Generator) : applyPatch g GenPatch.empty = g := rfl

/-- Decoding an override object into a generator is exactly reading the patch
and applying it: member by member, mutating the copy agrees with extending
the patch. -/
theorem decodeGenFields_eq_patch (o : List (String × Json)) :
    ∀ (g : Generator) (p : GenPatch),
      decodeGenFields (applyPatch g p) o = (readPatchFields p o).map (applyPatch g) := by
  induction o with
  | nil => intro g p; rfl
  | cons kv o ih =>
    intro g p
    obtain ⟨k, v⟩ := kv
    have hfield : ∀ q : GenPatch,
        decodeGenField (applyPatch g q) k v = (readPatchField q k v).map (applyPatch g) := by
      intro q
      unfold decodeGenField readPatchField
      by_cases h1 : lowerKey k = "palette"
      · rw [if_pos h1, if_pos h1]
        rcases v with _ | b | n | s | xs | o2 <;> try rfl
        rcases hpf : paletteFromChars s.toList with _ | pe
        · simp only [hpf]
          rfl
        · rcases pe with e | pl <;> simp only [hpf, Except.map] <;> rfl
      by_cases h2 : lowerKey k = "invert"
      · rw [if_neg h1, if_neg h1, if_pos h2, if_pos h2]
        rcases v with _ | b | n | s | xs | o2 <;> rfl
      by_cases h3 : lowerKey k = "targetwidth"
      · rw [if_neg h1, if_neg h1, if_neg h2, if_neg h2, if_pos h3, if_pos h3]
        rcases v with _ | b | n | s | xs | o2 <;> rfl
      by_cases h4 : lowerKey k = "targetheight"
      · rw [if_neg h1, if_neg h1, if_neg h2, if_neg h2, if_neg h3, if_neg h3, if_pos h4, if_pos h4]
        rcases v with _ | b | n | s | xs | o2 <;> rfl
      by_cases h5 : lowerKey k = "scaler"
      · rw [if_neg h1, if_neg h1, if_neg h2, if_neg h2, if_neg h3, if_neg h3, if_neg h4, if_neg h4, if_pos h5, if_pos h5]
        rcases v with _ | b | n | s | xs | o2 <;> rfl
      by_cases h6 : lowerKey k = "renderer"
      · rw [if_neg h1, if_neg h1, if_neg h2, if_neg h2, if_neg h3, if_neg h3, if_neg h4, if_neg h4, if_neg h5, if_neg h5, if_pos h6, if_pos h6]
        rcases v with _ | b | n | s | xs | o2 <;> rfl
      by_cases h7 : lowerKey k = "varname"
      · rw [if_neg h1, if_neg h1, if_neg h2, if_neg h2, if_neg h3, if_neg h3, if_neg h4, if_neg h4, if_neg h5, if_neg h5, if_neg h6, if_neg h6, if_pos h7, if_pos h7]
        rcases v with _ | b | n | s | xs | o2 <;> rfl
      by_cases h8 : lowerKey k = "paletteoffset"
      · rw [if_neg h1, if_neg h1, if_neg h2, if_neg h2, if_neg h3, if_neg h3, if_neg h4, if_neg h4, if_neg h5, if_neg h5, if_neg h6, if_neg h6, if_neg h7, if_neg h7, if_pos h8, if_pos h8]
        rcases v with _ | b | n | s | xs | o2 <;> rfl
      by_cases h9 : lowerKey k = "rowwisejs"
      · rw [if_neg h1, if_neg h1, if_neg h2, if_neg h2, if_neg h3, if_neg h3, if_neg h4, if_neg h4, if_neg h5, if_neg h5, if_neg h6, if_neg h6, if_neg h7, if_neg h7, if_neg h8, if_neg h8, if_pos h9, if_pos h9]
        rcases v with _ | b | n | s | xs | o2 <;> rfl
      rw [if_neg h1, if_neg h1, if_neg h2, if_neg h2, if_neg h3, if_neg h3, if_neg h4, if_neg h4, if_neg h5, if_neg h5, if_neg h6, if_neg h6, if_neg h7, if_neg h7, if_neg h8, if_neg h8, if_neg h9, if_neg h9]
      rfl
    show decodeGenFields _ _ = _
    unfold decodeGenFields readPatchFields
    rw [hfield p]
    cases hp : readPatchField p k v with
    | error e => rfl
    | ok p1 =>
      show decodeGenFields (applyPatch g p1) o = _
      exact ih g p1

/-- The values of the `gen` members of an area object, in order. -/
def genOccs (akvs : List (String × Json)) : List Json :=
  akvs.filterMap fun kv => if lowerKey kv.1 = "gen" then some kv.2 else none

theorem decodeAreaField_gen_preserved (a a' : Area) (k : String) (v : Json)
    (h : decodeAreaField a k v = .ok a') (hk : lowerKey k ≠ "gen") :
    a'.gen = a.gen := by
  unfold decodeAreaField at h
  split_ifs at h <;> try exact absurd ‹lowerKey k = "gen"› hk
  all_goals
    rcases v with _ | b | n | s | xs | o2 <;>
      simp only [Except.ok.injEq, reduceCtorEq] at h <;>
        first
          | (subst h; rfl)
          | exact absurd h (by simp)
          | cases h

theorem decodeAreaField_gen_obj (a a' : Area) (k : String) (o : List (String × Json))
    (h : decodeAreaField a k (.obj o) = .ok a') (hk : lowerKey k = "gen") :
    ∃ g1, decodeGenFields (a.gen.getD Generator.zero) o = .ok g1 ∧ a'.gen = some g1 := by
  unfold decodeAreaField at h
  rw [if_neg (by rw [hk]; decide), if_neg (by rw [hk]; decide),
    if_neg (by rw [hk]; decide), if_neg (by rw [hk]; decide), if_pos hk] at h
  have h2 : (match decodeGenFields (a.gen.getD Generator.zero) o with
      | .error e => (Except.error e : Except DErr Area)
      | .ok g1 => Except.ok { a with gen := some g1 }) = Except.ok a' := h
  cases hg : decodeGenFields (a.gen.getD Generator.zero) o with
  | error e => rw [hg] at h2; cases h2
  | ok g1 =>
    rw [hg] at h2
    cases h2
    exact ⟨g1, rfl, rfl⟩

/-- How the sequential area decode treats the `gen` pointer: with no `gen`
member it is untouched; with exactly one `gen` member holding an object, the
final pointer holds that object decoded into the seeded generator. -/
theorem decodeAreaFields_genOccs :
    ∀ (akvs : List (String × Json)) (a a' : Area),
      decodeAreaFields a akvs = .ok a' →
      (genOccs akvs = [] → a'.gen = a.gen) ∧
      (∀ o, genOccs akvs = [Json.obj o] →
        ∃ g1, decodeGenFields (a.gen.getD Generator.zero) o = .ok g1 ∧
          a'.gen = some g1) := by
  intro akvs
  induction akvs with
  | nil =>
    intro a a' h
    cases h
    exact ⟨fun _ => rfl, fun o ho => by simp [genOccs] at ho⟩
  | cons kv t ih =>
    intro a a' h
    obtain ⟨k, v⟩ := kv
    unfold decodeAreaFields at h
    cases ha1 : decodeAreaField a k v with
    | error e => rw [ha1] at h; cases h
    | ok a1 =>
      rw [ha1] at h
      by_cases hk : lowerKey k = "gen"
      · have hocc : genOccs ((k, v) :: t) = v :: genOccs t := by
          simp [genOccs, hk]
        refine ⟨fun h0 => ?_, fun o ho => ?_⟩
        · rw [hocc] at h0; cases h0
        · rw [hocc] at ho
          simp only [List.cons.injEq] at ho
          obtain ⟨rfl, htnil⟩ := ho
          obtain ⟨g1, hg1, ha1gen⟩ := decodeAreaField_gen_obj a a1 k o ha1 hk
          have := (ih a1 a' h).1 htnil
          exact ⟨g1, hg1, this.trans ha1gen⟩
      · have hocc : genOccs ((k, v) :: t) = genOccs t := by
          simp [genOccs, hk]
        have hgen : a1.gen = a.gen := decodeAreaField_gen_preserved a a1 k v ha1 hk
        refine ⟨fun h0 => ?_, fun o ho => ?_⟩
        · rw [hocc] at h0
          exact ((ih a1 a' h).1 h0).trans hgen
        · rw [hocc] at ho
          obtain ⟨g1, hg1, ha'⟩ := (ih a1 a' h).2 o ho
          rw [hgen] at hg1
          exact ⟨g1, hg1, ha'⟩

/-- The concrete region map of the claim: two areas, a top-level
`gen.renderer = "js"` override, and an `invert = true` override in area 0. -/
def docC5 : Json :=
  .obj [("gen", .obj [("renderer", .str "js")]),
    ("areas", .arr [
      .obj [("x", .num 0), ("y", .num 0), ("w", .num 1), ("h", .num 1),
        ("gen", .obj [("invert", .bool true)])],
      .obj [("x", .num 1), ("y", .num 0), ("w", .num 1), ("h", .num 1)]])]

/-- C5. Shallow field-level override semantics: (1) decoding an override
object into a generator copy replaces exactly the fields present in the
override (it equals applying the parent-independent patch the object
denotes); (2) an area whose JSON carries exactly one `gen` override object
gets, as its effective generator, the map generator (a deep copy of the
parent, itself overridden by any top-level `gen`) with exactly that patch
applied; (3) the claim's two-area example: with a top-level
`gen.renderer = "js"` and `invert = true` on area 0 only, area 0 decodes to
(renderer "js", invert true) and area 1 to (renderer "js", invert false). -/
theorem area_gen_override :
    (∀ (g0 : Generator) (o : List (String × Json)),
      decodeGeneratorInto g0 (.obj o) = (genPatchOf o).map (applyPatch g0)) ∧
    (∀ (g0 : Generator) (akvs : List (String × Json)) (a' : Area)
        (o : List (String × Json)),
      decodeArea (initArea g0) (.obj akvs) = .ok a' →
      genOccs akvs = [Json.obj o] →
      ∃ p, genPatchOf o = .ok p ∧ a'.gen = some (applyPatch g0 p)) ∧
    ((decodeImageMap Generator.zero docC5).toOption.map (fun im =>
        (im.areas.length,
          (im.areas.getD 0 (initArea Generator.zero)).gen.map
            (fun g => (g.Renderer, g.Invert)),
          (im.areas.getD 1 (initArea Generator.zero)).gen.map
            (fun g => (g.Renderer, g.Invert)))) =
      some (2, some ("js", true), some ("js", false))) := by
  have hpart1 : ∀ (g0 : Generator) (o : List (String × Json)),
      decodeGeneratorInto g0 (.obj o) = (genPatchOf o).map (applyPatch g0) := by
    intro g0 o
    show decodeGenFields g0 o = _
    rw [show g0 = applyPatch g0 GenPatch.empty from rfl]
    exact decodeGenFields_eq_patch o g0 GenPatch.empty
  refine ⟨hpart1, fun g0 akvs a' o h hocc => ?_, by rfl⟩
  have harea : decodeAreaFields (initArea g0) akvs = .ok a' := h
  obtain ⟨g1, hg1, ha'⟩ := (decodeAreaFields_genOccs akvs _ a' harea).2 o hocc
  have : decodeGeneratorInto g0 (.obj o) = .ok g1 := by
    show decodeGenFields g0 o = .ok g1
    exact hg1
  rw [hpart1 g0 o] at this
  cases hp : genPatchOf o with
  | error e => rw [hp] at this; cases this
  | ok p =>
    rw [hp] at this
    refine ⟨p, rfl, ?_⟩
    cases this
    exact ha'

def akvsC5 : List (String × Json) :=
  [("gen", .obj [("invert", .bool true)])]

def areaC5 : Area :=
  ⟨0, 0, 0, 0, some { Generator.zero with Invert := true }⟩

theorem area_gen_override_witness :
    decodeArea (initArea Generator.zero) (.obj akvsC5) = .ok areaC5 ∧
    genOccs akvsC5 = [Json.obj [("invert", Json.bool true)]] ∧
    ∃ p, genPatchOf [("invert", Json.bool true)] = .ok p ∧
      areaC5.gen = some (applyPatch Generator.zero p) :=
  ⟨rfl, rfl,
    area_gen_override.2.1 Generator.zero akvsC5 areaC5
      [("invert", Json.bool true)] rfl rfl⟩

/-- The JSON tags of the `Generator` schema (lowercased, as matched). -/
def genTags : List String :=
  ["palette", "invert", "targetwidth", "targetheight", "scaler", "renderer",
    "varname", "paletteoffset", "rowwisejs"]

/-- The JSON tags of the `Area` schema. -/
def areaTags : List String := ["x", "y", "w", "h", "gen"]

/-- The JSON field names of the top-level region-map schema. -/
def topTags : List String := ["gen", "areas"]

/-- A generator override object carries a field outside the `Generator`
schema. -/
def genObjUnknown (j : Json) : Bool :=
  match j with
  | .obj o => o.any fun kv => !(decide (lowerKey kv.1 ∈ genTags))
  | _ => false

/-- An area object carries a field outside the `Area` schema (or its `gen`
override does). -/
def areaUnknown (j : Json) : Bool :=
  match j with
  | .obj o => o.any fun kv =>
      !(decide (lowerKey kv.1 ∈ areaTags)) ||
        (decide (lowerKey kv.1 = "gen") && genObjUnknown kv.2)
  | _ => false

/-- The region-map document carries a field outside the schema somewhere: at
top level, inside a top-level `gen` override, or inside any area of the
`areas` array (including the areas' own `gen` overrides). -/
def imageMapUnknown (j : Json) : Bool :=
  match j with
  | .obj kvs => kvs.any fun kv =>
      !(decide (lowerKey kv.1 ∈ topTags)) ||
        (decide (lowerKey kv.1 = "gen") && genObjUnknown kv.2) ||
        (decide (lowerKey kv.1 = "areas") &&
          (match kv.2 with
            | .arr xs => xs.any areaUnknown
            | _ => false))
  | _ => false

/-- The document's top-level keys are pairwise distinct (after lowercasing) —
the well-formed-JSON case the claim speaks about. -/
def topKeysNodup (j : Json) : Prop :=
  match j with
  | .obj kvs => (kvs.map fun kv => lowerKey kv.1).Nodup
  | _ => True

theorem decodeGenField_key_known (g g1 : Generator) (k : String) (v : Json)
    (h : decodeGenField g k v = .ok g1) : lowerKey k ∈ genTags := by
  by_contra hc
  simp only [genTags, List.mem_cons, List.not_mem_nil, or_false, not_or] at hc
  obtain ⟨hc1, hc2, hc3, hc4, hc5, hc6, hc7, hc8, hc9⟩ := hc
  unfold decodeGenField at h
  rw [if_neg hc1, if_neg hc2, if_neg hc3, if_neg hc4, if_neg hc5, if_neg hc6,
    if_neg hc7, if_neg hc8, if_neg hc9] at h
  cases h

theorem decodeGenFields_each (o : List (String × Json)) :
    ∀ (g g' : Generator), decodeGenFields g o = .ok g' →
      ∀ kv ∈ o, ∃ g1 g2, decodeGenField g1 kv.1 kv.2 = .ok g2 := by
  induction o with
  | nil => intro g g' _ kv hm; cases hm
  | cons kv0 t ih =>
    intro g g' h kv hm
    unfold decodeGenFields at h
    cases h0 : decodeGenField g kv0.1 kv0.2 with
    | error e => rw [h0] at h; cases h
    | ok g1 =>
      rw [h0] at h
      rcases List.mem_cons.mp hm with rfl | hm2
      · exact ⟨g, g1, h0⟩
      · exact ih g1 g' h kv hm2

theorem decodeGeneratorInto_clean (g g' : Generator) (o : List (String × Json))
    (h : decodeGeneratorInto g (.obj o) = .ok g') : genObjUnknown (.obj o) = false := by
  have h2 : decodeGenFields g o = .ok g' := h
  simp only [genObjUnknown, List.any_eq_false]
  intro kv hm
  obtain ⟨g1, g2, hf⟩ := decodeGenFields_each o g g' h2 kv hm
  simp [decodeGenField_key_known g1 g2 kv.1 kv.2 hf]

theorem decodeAreaField_key_known (a a1 : Area) (k : String) (v : Json)
    (h : decodeAreaField a k v = .ok a1) : lowerKey k ∈ areaTags := by
  by_contra hc
  simp only [areaTags, List.mem_cons, List.not_mem_nil, or_false, not_or] at hc
  obtain ⟨hc1, hc2, hc3, hc4, hc5⟩ := hc
  unfold decodeAreaField at h
  rw [if_neg hc1, if_neg hc2, if_neg hc3, if_neg hc4, if_neg hc5] at h
  cases h

theorem decodeAreaField_gen_clean (a a1 : Area) (k : String) (v : Json)
    (h : decodeAreaField a k v = .ok a1) (hk : lowerKey k = "gen") :
    genObjUnknown v = false := by
  unfold decodeAreaField at h
  rw [if_neg (by rw [hk]; decide), if_neg (by rw [hk]; decide),
    if_neg (by rw [hk]; decide), if_neg (by rw [hk]; decide), if_pos hk] at h
  rcases v with _ | b | n | s | xs | o2 <;> try rfl
  have h2 : (match decodeGeneratorInto (a.gen.getD Generator.zero) (Json.obj o2) with
      | .error e => (Except.error e : Except DErr Area)
      | .ok g1 => Except.ok { a with gen := some g1 }) = Except.ok a1 := h
  cases hg : decodeGeneratorInto (a.gen.getD Generator.zero) (Json.obj o2) with
  | error e => rw [hg] at h2; cases h2
  | ok g1 => exact decodeGeneratorInto_clean _ _ _ hg

theorem decodeAreaFields_each (akvs : List (String × Json)) :
    ∀ (a a' : Area), decodeAreaFields a akvs = .ok a' →
      ∀ kv ∈ akvs, ∃ a1 a2, decodeAreaField a1 kv.1 kv.2 = .ok a2 := by
  induction akvs with
  | nil => intro a a' _ kv hm; cases hm
  | cons kv0 t ih =>
    intro a a' h kv hm
    unfold decodeAreaFields at h
    cases h0 : decodeAreaField a kv0.1 kv0.2 with
    | error e => rw [h0] at h; cases h
    | ok a1 =>
      rw [h0] at h
      rcases List.mem_cons.mp hm with rfl | hm2
      · exact ⟨a, a1, h0⟩
      · exact ih a1 a' h kv hm2

theorem decodeArea_clean (a a' : Area) (j : Json)
    (h : decodeArea a j = .ok a') : areaUnknown j = false := by
  rcases j with _ | b | n | s | xs | akvs <;> try rfl
  have h2 : decodeAreaFields a akvs = .ok a' := h
  simp only [areaUnknown, List.any_eq_false]
  intro kv hm
  obtain ⟨a1, a2, hf⟩ := decodeAreaFields_each akvs a a' h2 kv hm
  have hkn := decodeAreaField_key_known a1 a2 kv.1 kv.2 hf
  by_cases hg : lowerKey kv.1 = "gen"
  · simp [hkn, hg, decodeAreaField_gen_clean a1 a2 kv.1 kv.2 hf hg, areaTags]
  · simp [hkn, hg]

theorem decodeAreas_clean (xs : List Json) :
    ∀ (g0 : Generator) (s : ℕ) (as : List Area), decodeAreas g0 s xs = .ok as →
      ∀ x ∈ xs, areaUnknown x = false := by
  induction xs with
  | nil => intro g0 s as _ x hm; cases hm
  | cons x0 t ih =>
    intro g0 s as h x hm
    unfold decodeAreas at h
    cases h0 : decodeArea (initArea g0) x0 with
    | error e => rw [h0] at h; cases h
    | ok a =>
      rw [h0] at h
      cases h1 : decodeAreas g0 (s + 1) t with
      | error e => rw [h1] at h; cases h
      | ok as2 =>
        rcases List.mem_cons.mp hm with rfl | hm2
        · exact decodeArea_clean _ a x h0
        · exact ih g0 (s + 1) as2 h1 x hm2

theorem decodeTopFields_each (kvs : List (String × Json)) :
    ∀ (st st' : TopState), decodeTopFields st kvs = .ok st' →
      ∀ kv ∈ kvs, (lowerKey kv.1 ∈ topTags) ∧
        (lowerKey kv.1 = "gen" → genObjUnknown kv.2 = false) := by
  induction kvs with
  | nil => intro st st' _ kv hm; cases hm
  | cons kv0 t ih =>
    intro st st' h kv hm
    obtain ⟨k, v⟩ := kv0
    unfold decodeTopFields at h
    by_cases hk1 : lowerKey k = "gen"
    · rw [if_pos hk1] at h
      rcases v with _ | b | n | s | xs | o2
      · have h2 : decodeTopFields { st with aliased := false } t = .ok st' := h
        rcases List.mem_cons.mp hm with rfl | hm2
        · exact ⟨by simp [hk1, topTags], fun _ => rfl⟩
        · exact ih _ _ h2 kv hm2
      · exact absurd ((rfl : (Except.error (DErr.typeMismatch "gen") :
          Except DErr TopState) = _).trans h) (by simp)
      · exact absurd ((rfl : (Except.error (DErr.typeMismatch "gen") :
          Except DErr TopState) = _).trans h) (by simp)
      · exact absurd ((rfl : (Except.error (DErr.typeMismatch "gen") :
          Except DErr TopState) = _).trans h) (by simp)
      · exact absurd ((rfl : (Except.error (DErr.typeMismatch "gen") :
          Except DErr TopState) = _).trans h) (by simp)
      · have h2 : (if st.aliased then
            match decodeGeneratorInto st.imGen (Json.obj o2) with
            | .error e => (Except.error e : Except DErr TopState)
            | .ok g1 => decodeTopFields { st with imGen := g1 } t
          else
            match decodeGeneratorInto Generator.zero (Json.obj o2) with
            | .error e => (Except.error e : Except DErr TopState)
            | .ok _ => decodeTopFields st t) = Except.ok st' := h
        by_cases hal : st.aliased
        · rw [if_pos hal] at h2
          cases hg : decodeGeneratorInto st.imGen (Json.obj o2) with
          | error e => rw [hg] at h2; cases h2
          | ok g1 =>
            rw [hg] at h2
            rcases List.mem_cons.mp hm with rfl | hm2
            · exact ⟨by simp [hk1, topTags],
                fun _ => decodeGeneratorInto_clean _ _ _ hg⟩
            · exact ih _ _ h2 kv hm2
        · rw [if_neg hal] at h2
          cases hg : decodeGeneratorInto Generator.zero (Json.obj o2) with
          | error e => rw [hg] at h2; cases h2
          | ok g1 =>
            rw [hg] at h2
            rcases List.mem_cons.mp hm with rfl | hm2
            · exact ⟨by simp [hk1, topTags],
                fun _ => decodeGeneratorInto_clean _ _ _ hg⟩
            · exact ih _ _ h2 kv hm2
    · rw [if_neg hk1] at h
      by_cases hk2 : lowerKey k = "areas"
      · rw [if_pos hk2] at h
        rcases v with _ | b | n | s | xs | o2
        · have h2 : decodeTopFields { st with areasRaw := none } t = .ok st' := h
          rcases List.mem_cons.mp hm with rfl | hm2
          · exact ⟨by simp [hk2, topTags], fun hg => absurd hg hk1⟩
          · exact ih _ _ h2 kv hm2
        · exact absurd ((rfl : (Except.error (DErr.typeMismatch "areas") :
            Except DErr TopState) = _).trans h) (by simp)
        · exact absurd ((rfl : (Except.error (DErr.typeMismatch "areas") :
            Except DErr TopState) = _).trans h) (by simp)
        · exact absurd ((rfl : (Except.error (DErr.typeMismatch "areas") :
            Except DErr TopState) = _).trans h) (by simp)
        · have h2 : decodeTopFields { st with areasRaw := some xs } t = .ok st' := h
          rcases List.mem_cons.mp hm with rfl | hm2
          · exact ⟨by simp [hk2, topTags], fun hg => absurd hg hk1⟩
          · exact ih _ _ h2 kv hm2
        · exact absurd ((rfl : (Except.error (DErr.typeMismatch "areas") :
            Except DErr TopState) = _).trans h) (by simp)
      · rw [if_neg hk2] at h
        cases h

theorem decodeTopFields_areasRaw_pres (kvs : List (String × Json)) :
    ∀ (st st' : TopState), decodeTopFields st kvs = .ok st' →
      (∀ kv ∈ kvs, lowerKey kv.1 ≠ "areas") → st'.areasRaw = st.areasRaw := by
  induction kvs with
  | nil => intro st st' h _; cases h; rfl
  | cons kv0 t ih =>
    intro st st' h hna
    obtain ⟨k, v⟩ := kv0
    have hk2 : lowerKey k ≠ "areas" := hna (k, v) (List.mem_cons_self _ _)
    have hna2 : ∀ kv ∈ t, lowerKey kv.1 ≠ "areas" :=
      fun kv hm => hna kv (List.mem_cons_of_mem _ hm)
    unfold decodeTopFields at h
    by_cases hk1 : lowerKey k = "gen"
    · rw [if_pos hk1] at h
      rcases v with _ | b | n | s | xs | o2
      · have h2 : decodeTopFields { st with aliased := false } t = .ok st' := h
        exact (ih _ _ h2 hna2).trans rfl
      · cases ((rfl : (Except.error (DErr.typeMismatch "gen") :
          Except DErr TopState) = _).trans h)
      · cases ((rfl : (Except.error (DErr.typeMismatch "gen") :
          Except DErr TopState) = _).trans h)
      · cases ((rfl : (Except.error (DErr.typeMismatch "gen") :
          Except DErr TopState) = _).trans h)
      · cases ((rfl : (Except.error (DErr.typeMismatch "gen") :
          Except DErr TopState) = _).trans h)
      · have h2 : (if st.aliased then
            match decodeGeneratorInto st.imGen (Json.obj o2) with
            | .error e => (Except.error e : Except DErr TopState)
            | .ok g1 => decodeTopFields { st with imGen := g1 } t
          else
            match decodeGeneratorInto Generator.zero (Json.obj o2) with
            | .error e => (Except.error e : Except DErr TopState)
            | .ok _ => decodeTopFields st t) = Except.ok st' := h
        by_cases hal : st.aliased
        · rw [if_pos hal] at h2
          cases hg : decodeGeneratorInto st.imGen (Json.obj o2) with
          | error e => rw [hg] at h2; cases h2
          | ok g1 =>
            rw [hg] at h2
            exact (ih _ _ h2 hna2).trans rfl
        · rw [if_neg hal] at h2
          cases hg : decodeGeneratorInto Generator.zero (Json.obj o2) with
          | error e => rw [hg] at h2; cases h2
          | ok g1 =>
            rw [hg] at h2
            exact ih _ _ h2 hna2
    · rw [if_neg hk1, if_neg hk2] at h
      cases h

theorem decodeTopFields_areas_capture (kvs : List (String × Json)) :
    ∀ (st st' : TopState), decodeTopFields st kvs = .ok st' →
      (kvs.map fun kv => lowerKey kv.1).Nodup →
      ∀ kv ∈ kvs, lowerKey kv.1 = "areas" → ∀ xs, kv.2 = .arr xs →
        st'.areasRaw = some xs := by
  induction kvs with
  | nil => intro st st' _ _ kv hm; cases hm
  | cons kv0 t ih =>
    intro st st' h hnd kv hm hka xs hxs
    obtain ⟨k, v⟩ := kv0
    have hnd1 : lowerKey k ∉ t.map fun kv => lowerKey kv.1 :=
      (List.nodup_cons.mp hnd).1
    have hnd2 : (t.map fun kv => lowerKey kv.1).Nodup := (List.nodup_cons.mp hnd).2
    unfold decodeTopFields at h
    rcases List.mem_cons.mp hm with rfl | hm2
    · -- the target member is the head
      rw [if_neg (by rw [hka]; decide), if_pos hka] at h
      subst hxs
      have h2 : decodeTopFields { st with areasRaw := some xs } t = .ok st' := h
      have hpres : ∀ kv2 ∈ t, lowerKey kv2.1 ≠ "areas" := by
        intro kv2 hm2 heq
        exact hnd1 (hka ▸ heq ▸ List.mem_map_of_mem _ hm2)
      exact (decodeTopFields_areasRaw_pres t _ _ h2 hpres).trans rfl
    · -- the target member is in the tail
      by_cases hk1 : lowerKey k = "gen"
      · rw [if_pos hk1] at h
        rcases v with _ | b | n | s | xs2 | o2
        · have h2 : decodeTopFields { st with aliased := false } t = .ok st' := h
          exact ih _ _ h2 hnd2 kv hm2 hka xs hxs
        · cases ((rfl : (Except.error (DErr.typeMismatch "gen") :
            Except DErr TopState) = _).trans h)
        · cases ((rfl : (Except.error (DErr.typeMismatch "gen") :
            Except DErr TopState) = _).trans h)
        · cases ((rfl : (Except.error (DErr.typeMismatch "gen") :
            Except DErr TopState) = _).trans h)
        · cases ((rfl : (Except.error (DErr.typeMismatch "gen") :
            Except DErr TopState) = _).trans h)
        · have h2 : (if st.aliased then
              match decodeGeneratorInto st.imGen (Json.obj o2) with
              | .error e => (Except.error e : Except DErr TopState)
              | .ok g1 => decodeTopFields { st with imGen := g1 } t
            else
              match decodeGeneratorInto Generator.zero (Json.obj o2) with
              | .error e => (Except.error e : Except DErr TopState)
              | .ok _ => decodeTopFields st t) = Except.ok st' := h
          by_cases hal : st.aliased
          · rw [if_pos hal] at h2
            cases hg : decodeGeneratorInto st.imGen (Json.obj o2) with
            | error e => rw [hg] at h2; cases h2
            | ok g1 => rw [hg] at h2; exact ih _ _ h2 hnd2 kv hm2 hka xs hxs
          · rw [if_neg hal] at h2
            cases hg : decodeGeneratorInto Generator.zero (Json.obj o2) with
            | error e => rw [hg] at h2; cases h2
            | ok g1 => rw [hg] at h2; exact ih _ _ h2 hnd2 kv hm2 hka xs hxs
      · by_cases hk2 : lowerKey k = "areas"
        · -- a second "areas" key would contradict the nodup hypothesis
          have hmem : lowerKey kv.1 ∈ t.map fun kv => lowerKey kv.1 :=
            List.mem_map_of_mem _ hm2
          rw [hka, ← hk2] at hmem
          exact absurd hmem hnd1
        · rw [if_neg hk1, if_neg hk2] at h
          cases h

theorem decodeAreas_fail_at (xs : List Json) :
    ∀ (g0 : Generator) (s idx : ℕ), idx < xs.length →
      (∀ k, k < idx → (decodeArea (initArea g0) (xs.getD k .null)).isOk = true) →
      (decodeArea (initArea g0) (xs.getD idx .null)).isOk = false →
      ∃ e, decodeAreas g0 s xs = .error (.areaErr (s + idx) e) := by
  induction xs with
  | nil => intro g0 s idx hidx; simp at hidx
  | cons x t ih =>
    intro g0 s idx hidx hpre hfail
    cases idx with
    | zero =>
      cases hx : decodeArea (initArea g0) x with
      | error e =>
        refine ⟨e, ?_⟩
        unfold decodeAreas
        rw [hx]
        rfl
      | ok a =>
        rw [show (x :: t).getD 0 .null = x from rfl, hx] at hfail
        cases hfail
    | succ idx2 =>
      have hx : (decodeArea (initArea g0) x).isOk = true := by
        have := hpre 0 (Nat.succ_pos idx2)
        exact this
      cases hx2 : decodeArea (initArea g0) x with
      | error e => rw [hx2] at hx; cases hx
      | ok a =>
        have hpre2 : ∀ k, k < idx2 →
            (decodeArea (initArea g0) (t.getD k .null)).isOk = true := by
          intro k hk
          have := hpre (k + 1) (by omega)
          exact this
        have hfail2 : (decodeArea (initArea g0) (t.getD idx2 .null)).isOk = false :=
          hfail
        have hidx2 : idx2 < t.length := by
          have h3 : idx2 + 1 < t.length + 1 := by simpa using hidx
          omega
        obtain ⟨e, he⟩ := ih g0 (s + 1) idx2 hidx2 hpre2 hfail2
        refine ⟨e, ?_⟩
        have hs : s + (idx2 + 1) = s + 1 + idx2 := by omega
        rw [hs]
        unfold decodeAreas
        rw [hx2, he]

/-- C6. Strict region-map decoding: (1) for a document whose top-level keys
are distinct, the presence of any field outside the schema — at top level,
inside a `gen` override, or inside any area — makes the decode fail (never a
silent ignore); (2) when the top-level phase succeeds and area `idx` is the
first whose JSON is malformed, the returned error is `invalid area idx`,
identifying the area by its index. -/
theorem regionMap_strict_decode :
    (∀ (parent : Generator) (j : Json), topKeysNodup j → imageMapUnknown j = true →
      (decodeImageMap parent j).isOk = false) ∧
    (∀ (parent : Generator) (j : Json) (g0 : Generator) (xs : List Json) (idx : ℕ),
      topPhase parent j = .ok (g0, xs) → idx < xs.length →
      (∀ k, k < idx → (decodeArea (initArea g0) (xs.getD k .null)).isOk = true) →
      (decodeArea (initArea g0) (xs.getD idx .null)).isOk = false →
      ∃ e, decodeImageMap parent j = .error (.areaErr idx e)) := by
  constructor
  · intro parent j hnd hunk
    rcases j with _ | b | n | s | xs | kvs
    · exact Bool.noConfusion hunk
    · exact Bool.noConfusion hunk
    · exact Bool.noConfusion hunk
    · exact Bool.noConfusion hunk
    · exact Bool.noConfusion hunk
    by_contra hok
    simp only [Bool.not_eq_false] at hok
    have hex : ∃ im, decodeImageMap parent (.obj kvs) = .ok im := by
      cases hd : decodeImageMap parent (.obj kvs) with
      | error e => rw [hd] at hok; cases hok
      | ok im => exact ⟨im, rfl⟩
    obtain ⟨im, hd⟩ := hex
    cases hts : decodeTopFields ⟨parent, true, none⟩ kvs with
    | error e =>
      have htp : topPhase parent (.obj kvs) = .error e := by
        show (match decodeTopFields ⟨parent, true, none⟩ kvs with
          | .error e => (Except.error e : Except DErr (Generator × List Json))
          | .ok st => .ok (st.imGen, st.areasRaw.getD [])) = .error e
        rw [hts]
      have hDi : decodeImageMap parent (.obj kvs) = .error e := by
        unfold decodeImageMap
        rw [htp]
      rw [hDi] at hd
      cases hd
    | ok st =>
      have htp : topPhase parent (.obj kvs) = .ok (st.imGen, st.areasRaw.getD []) := by
        show (match decodeTopFields ⟨parent, true, none⟩ kvs with
          | .error e => (Except.error e : Except DErr (Generator × List Json))
          | .ok st => .ok (st.imGen, st.areasRaw.getD [])) = _
        rw [hts]
      have hDi : decodeImageMap parent (.obj kvs) =
          (match decodeAreas st.imGen 0 (st.areasRaw.getD []) with
            | .error e => (Except.error e : Except DErr ImageMap)
            | .ok as => Except.ok ⟨as, st.imGen⟩) := by
        unfold decodeImageMap
        rw [htp]
      rw [hDi] at hd
      have hd2 := hd
      have heach := decodeTopFields_each kvs _ _ hts
      simp only [imageMapUnknown, List.any_eq_true] at hunk
      obtain ⟨kv, hm, hviol⟩ := hunk
      have hmem := (heach kv hm).1
      rw [Bool.or_eq_true, Bool.or_eq_true] at hviol
      rcases hviol with (h1 | h2) | h3
      · have hdf : decide (lowerKey kv.1 ∈ topTags) = false := by
          cases hdec : decide (lowerKey kv.1 ∈ topTags)
          · rfl
          · rw [hdec] at h1; cases h1
        exact absurd hmem (of_decide_eq_false hdf)
      · rw [Bool.and_eq_true] at h2
        obtain ⟨hgenb, hunk2⟩ := h2
        have hgen := of_decide_eq_true hgenb
        rw [(heach kv hm).2 hgen] at hunk2
        cases hunk2
      · rw [Bool.and_eq_true] at h3
        obtain ⟨hareasb, hunk2⟩ := h3
        have hareas := of_decide_eq_true hareasb
        rcases hv2 : kv.2 with _ | b2 | n2 | s2 | xs2 | o2 <;> rw [hv2] at hunk2 <;>
          try cases hunk2
        have hcap := decodeTopFields_areas_capture kvs _ _ hts hnd kv hm hareas xs2 hv2
        cases has : decodeAreas st.imGen 0 (st.areasRaw.getD []) with
        | error e => rw [has] at hd2; cases hd2
        | ok as =>
          have hclean := decodeAreas_clean (st.areasRaw.getD []) st.imGen 0 as has
          rw [hcap] at hclean
          simp only [List.any_eq_true] at hunk2
          obtain ⟨x, hxm, hxunk⟩ := hunk2
          rw [hclean x hxm] at hxunk
          cases hxunk
  · intro parent j g0 xs idx htop hidx hpre hfail
    obtain ⟨e, he⟩ := decodeAreas_fail_at xs g0 0 idx hidx hpre hfail
    rw [Nat.zero_add] at he
    refine ⟨e, ?_⟩
    have hDi : decodeImageMap parent j =
        (match decodeAreas g0 0 xs with
          | .error e2 => (Except.error e2 : Except DErr ImageMap)
          | .ok as => Except.ok ⟨as, g0⟩) := by
      unfold decodeImageMap
      rw [htop]
    rw [hDi, he]

def docC6a : Json := .obj [("bogus", .num 1)]

def docC6b : Json := .obj [("areas", .arr [.obj [], .num 7])]

theorem regionMap_strict_decode_witness :
    (topKeysNodup docC6a ∧ imageMapUnknown docC6a = true ∧
      (decodeImageMap Generator.zero docC6a).isOk = false) ∧
    (topPhase Generator.zero docC6b = .ok (Generator.zero, [Json.obj [], Json.num 7]) ∧
      1 < ([Json.obj [], Json.num 7] : List Json).length ∧
      (∀ k, k < 1 → (decodeArea (initArea Generator.zero)
        (([Json.obj [], Json.num 7] : List Json).getD k .null)).isOk = true) ∧
      (decodeArea (initArea Generator.zero)
        (([Json.obj [], Json.num 7] : List Json).getD 1 .null)).isOk = false ∧
      ∃ e, decodeImageMap Generator.zero docC6b = .error (.areaErr 1 e)) :=
  ⟨⟨by show List.Nodup [lowerKey "bogus"]; decide, by decide,
    regionMap_strict_decode.1 Generator.zero docC6a
      (by show List.Nodup [lowerKey "bogus"]; decide) (by decide)⟩,
    ⟨rfl, by decide, by decide, by decide,
      regionMap_strict_decode.2 Generator.zero docC6b Generator.zero
        [Json.obj [], Json.num 7] 1 rfl (by decide) (by decide) (by decide)⟩⟩
